import Mathlib

/-!
Verification development for the streaming layer of this repository
(`src/utils/openai-stream.ts`).  The TypeScript source is shallowly embedded:

* JavaScript strings are modelled by Lean `String` (sequences of Unicode
  scalar values; JS lone surrogates are not representable and never arise in
  the behaviours verified here).
* `undefined`/absent fields are modelled by `Option` (`none`); a JS `null`
  field value is likewise modelled by `none` wherever only truthiness and
  presence are observed by the code.
* A thrown JS exception (`TypeError` from a property access on
  `undefined`/`null`, or `SyntaxError` from `JSON.parse`) is modelled with
  `Except Unit` or an explicit `threw` flag.
* Byte streams are modelled by the decoded strings they carry: the code
  decodes every incoming `Uint8Array` with a UTF-8 `createChunkDecoder()`
  and re-encodes outgoing strings with `TextEncoder`, so bytes and strings
  are in exact correspondence.

Library functions of the `ai` package and of the JavaScript runtime that the
source calls (`trimStartOfStreamHelper`, `String.prototype.trimStart`,
`JSON.parse`, `JSON.stringify`) are modelled from their standard documented
semantics, since they are dependencies rather than code of this repository.
-/

/-! ## JavaScript string basics -/

/-- Truthiness of an optional JS string: `undefined`, `null` and `""` are
falsy; every non-empty string is truthy. -/
def jsTruthy : Option String → Bool
  | none => false
  | some s => s ≠ ""

/-- Model of `String.prototype.startsWith` for a literal prefix. -/
def jsStartsWith (s pre : String) : Bool :=
  pre.data.isPrefixOf s.data

/-- Concatenation of a list of strings (the accumulation performed by
repeated `+=` on the aggregation buffers). -/
def strConcat : List String → String
  | [] => ""
  | s :: rest => s ++ strConcat rest

/-- Code points treated as whitespace by JavaScript `trimStart`
(ECMA-262 WhiteSpace and LineTerminator). -/
def jsWhitespaceCodes : List Nat :=
  [0x09, 0x0A, 0x0B, 0x0C, 0x0D, 0x20, 0xA0, 0x1680,
   0x2000, 0x2001, 0x2002, 0x2003, 0x2004, 0x2005, 0x2006, 0x2007,
   0x2008, 0x2009, 0x200A, 0x2028, 0x2029, 0x202F, 0x205F, 0x3000, 0xFEFF]

/-- Whitespace predicate used by the model of `trimStart`. -/
def isJsWhitespace (c : Char) : Bool :=
  jsWhitespaceCodes.contains c.toNat

/-- Model of JavaScript `String.prototype.trimStart`. -/
def jsTrimStart (s : String) : String :=
  ⟨s.data.dropWhile isJsWhitespace⟩

/-! ## The argument-fragment escaper of `chunkToText`

The source escapes a streamed `function_call.arguments` fragment with seven
chained global single-character `.replace` calls, backslash first:

  .replace(backslash -> backslash backslash)
  .replace(slash -> backslash slash)
  .replace(quote -> backslash quote)
  .replace(newline -> backslash n)
  .replace(carriage-return -> backslash r)
  .replace(tab -> backslash t)
  .replace(form-feed -> backslash f)
-/

/-- Global replacement of one character by a character sequence, the
behaviour of `.replace(/c/g, rep)` for a single-character pattern. -/
def replaceChar (pat : Char) (rep : List Char) (l : List Char) : List Char :=
  l.flatMap (fun c => if c = pat then rep else [c])

/-- The escaping performed on each `function_call.arguments` fragment in
`chunkToText`, as the source's chain of seven replaces (innermost first). -/
def escapeArgChunk (s : String) : String :=
  ⟨replaceChar (Char.ofNat 12) ['\\', 'f']
    (replaceChar '\t' ['\\', 't']
      (replaceChar '\r' ['\\', 'r']
        (replaceChar '\n' ['\\', 'n']
          (replaceChar '"' ['\\', '"']
            (replaceChar '/' ['\\', '/']
              (replaceChar '\\' ['\\', '\\'] s.data))))))⟩

/-- Per-character view of the escaper (proved to agree with the chain of
replaces in `escapeArgChunk_eq_flatMap`). -/
def escMapChar (c : Char) : List Char :=
  if c = '\\' then ['\\', '\\']
  else if c = '/' then ['\\', '/']
  else if c = '"' then ['\\', '"']
  else if c = '\n' then ['\\', 'n']
  else if c = '\r' then ['\\', 'r']
  else if c = '\t' then ['\\', 't']
  else if c = Char.ofNat 12 then ['\\', 'f']
  else [c]

/-! ## JSON string-literal parsing (RFC 8259 semantics of `JSON.parse`)

Restriction recorded here once: `\uXXXX` escapes denoting lone UTF-16
surrogates are rejected, because Lean strings hold Unicode scalar values;
no behaviour verified below produces a `\u` escape at all. -/

/-- Value of one hexadecimal digit. -/
def hexVal (c : Char) : Option Nat :=
  if '0' ≤ c ∧ c ≤ '9' then some (c.toNat - '0'.toNat)
  else if 'a' ≤ c ∧ c ≤ 'f' then some (c.toNat - 'a'.toNat + 10)
  else if 'A' ≤ c ∧ c ≤ 'F' then some (c.toNat - 'A'.toNat + 10)
  else none

/-- Surrogate code-point test. -/
def isSurrogateCode (n : Nat) : Bool :=
  0xD800 ≤ n && n ≤ 0xDFFF

/-- Decoding of a single-character JSON escape sequence. -/
def escSimple (e : Char) : Option Char :=
  if e = '"' then some '"'
  else if e = '\\' then some '\\'
  else if e = '/' then some '/'
  else if e = 'b' then some (Char.ofNat 8)
  else if e = 'f' then some (Char.ofNat 12)
  else if e = 'n' then some '\n'
  else if e = 'r' then some '\r'
  else if e = 't' then some '\t'
  else none

mutual

/-- Parses the body of a JSON string literal after the opening quote,
returning the decoded characters and the input remaining after the closing
quote.  Unescaped control characters below U+0020 are rejected, as by
`JSON.parse`. -/
def parseStringBodyAux : List Char → Option (List Char × List Char)
  | [] => none
  | c :: cs =>
    if c = '"' then some ([], cs)
    else if c = '\\' then parseEscapeSeq cs
    else if c.toNat < 32 then none
    else (parseStringBodyAux cs).map (fun p => (c :: p.1, p.2))

/-- Parses the remainder of a string body after a backslash. -/
def parseEscapeSeq : List Char → Option (List Char × List Char)
  | [] => none
  | e :: cs2 =>
    if e = 'u' then parseUnicodeEsc cs2
    else
      match escSimple e with
      | some d => (parseStringBodyAux cs2).map (fun p => (d :: p.1, p.2))
      | none => none

/-- Parses the four hex digits following a backslash-u escape. -/
def parseUnicodeEsc : List Char → Option (List Char × List Char)
  | h1 :: h2 :: h3 :: h4 :: cs3 =>
    match hexVal h1, hexVal h2, hexVal h3, hexVal h4 with
    | some a, some b, some c3, some d =>
      let n := ((a * 16 + b) * 16 + c3) * 16 + d
      if isSurrogateCode n then none
      else (parseStringBodyAux cs3).map (fun p => (Char.ofNat n :: p.1, p.2))
    | _, _, _, _ => none
  | _ => none

end

/-- Parsing of a complete JSON string literal at the character-list level. -/
def jsonParseStringLitL : List Char → Option (List Char)
  | c :: rest =>
    if c = '"' then
      match parseStringBodyAux rest with
      | some (content, []) => some content
      | _ => none
    else none
  | [] => none

/-- Parsing of a complete JSON string literal: an opening quote, a body, a
closing quote and nothing after it. -/
def jsonParseStringLit (s : String) : Option String :=
  (jsonParseStringLitL s.data).map (fun l => ⟨l⟩)

/-- Characters the escaper handles among the control range: newline,
carriage-return, tab, form-feed.  Any other control character is left
unescaped by the source's replace chain. -/
def handledControlChars : List Char := ['\n', '\r', '\t', Char.ofNat 12]

/-! ## Full JSON value parsing (model of `JSON.parse`) -/

/-- Left brace character, written by code point. -/
def lbrace : Char := Char.ofNat 123

/-- Right brace character, written by code point. -/
def rbrace : Char := Char.ofNat 125

/-- JSON insignificant whitespace. -/
def isJsonWs (c : Char) : Bool :=
  c = ' ' || c = '\t' || c = '\n' || c = '\r'

/-- Skips insignificant whitespace. -/
def skipWs (l : List Char) : List Char :=
  l.dropWhile isJsonWs

/-- Decimal digit test. -/
def isDigitChar (c : Char) : Bool :=
  '0' ≤ c && c ≤ '9'

/-- Integer part of a JSON number (leading zeros rejected). -/
def parseIntPart : List Char → Option (List Char × List Char)
  | [] => none
  | c :: rest =>
    if c = '0' then some (['0'], rest)
    else if isDigitChar c then
      some (c :: rest.takeWhile isDigitChar, rest.dropWhile isDigitChar)
    else none

/-- Optional fraction part of a JSON number. -/
def parseFracPart (l : List Char) : Option (List Char × List Char) :=
  match l with
  | c :: rest =>
    if c = '.' then
      match rest with
      | d :: _ =>
        if isDigitChar d then
          some ('.' :: rest.takeWhile isDigitChar, rest.dropWhile isDigitChar)
        else none
      | [] => none
    else some ([], l)
  | [] => some ([], l)

/-- Optional exponent part of a JSON number. -/
def parseExpPart (l : List Char) : Option (List Char × List Char) :=
  match l with
  | c :: rest =>
    if c = 'e' ∨ c = 'E' then
      let sr : List Char × List Char :=
        match rest with
        | s :: r2 => if s = '+' ∨ s = '-' then ([s], r2) else ([], rest)
        | [] => ([], rest)
      match sr.2 with
      | d :: _ =>
        if isDigitChar d then
          some (c :: sr.1 ++ sr.2.takeWhile isDigitChar, sr.2.dropWhile isDigitChar)
        else none
      | [] => none
    else some ([], l)
  | [] => some ([], l)

/-- Lexeme of a JSON number. -/
def parseNumberLex (l : List Char) : Option (List Char × List Char) :=
  let nl : List Char × List Char :=
    match l with
    | c :: rest => if c = '-' then (['-'], rest) else ([], l)
    | [] => ([], l)
  match parseIntPart nl.2 with
  | none => none
  | some (ip, r1) =>
    match parseFracPart r1 with
    | none => none
    | some (fp, r2) =>
      match parseExpPart r2 with
      | none => none
      | some (ep, r3) => some (nl.1 ++ ip ++ fp ++ ep, r3)

/-- JSON values as produced by `JSON.parse`.  Number lexemes are kept
verbatim; the numeric value itself is never inspected by the code under
verification.  Object fields are kept in source order. -/
inductive JsonValue where
  | null
  | bool (b : Bool)
  | num (lexeme : String)
  | str (s : String)
  | arr (elems : List JsonValue)
  | obj (fields : List (String × JsonValue))

mutual

/-- Fuelled JSON value parsing.  The fuel only bounds nesting depth; it is
always instantiated generously enough that it never runs out on the inputs
considered (each nesting level consumes at least one input character and at
most two units of fuel). -/
def parseValue : Nat → List Char → Option (JsonValue × List Char)
  | 0, _ => none
  | fuel + 1, l =>
    match skipWs l with
    | [] => none
    | c :: r =>
      if c = lbrace then
        match skipWs r with
        | c2 :: r2 =>
          if c2 = rbrace then some (.obj [], r2) else parseObjectFields fuel (c2 :: r2)
        | [] => none
      else if c = '[' then
        match skipWs r with
        | c2 :: r2 =>
          if c2 = ']' then some (.arr [], r2) else parseArrayElems fuel (c2 :: r2)
        | [] => none
      else if c = '"' then
        (parseStringBodyAux r).map (fun p => (JsonValue.str ⟨p.1⟩, p.2))
      else if c = 'n' then
        match r with
        | 'u' :: 'l' :: 'l' :: r2 => some (.null, r2)
        | _ => none
      else if c = 't' then
        match r with
        | 'r' :: 'u' :: 'e' :: r2 => some (.bool true, r2)
        | _ => none
      else if c = 'f' then
        match r with
        | 'a' :: 'l' :: 's' :: 'e' :: r2 => some (.bool false, r2)
        | _ => none
      else
        (parseNumberLex (c :: r)).map (fun p => (JsonValue.num ⟨p.1⟩, p.2))

/-- Parses a non-empty member list of a JSON object (after the opening
brace and leading whitespace). -/
def parseObjectFields : Nat → List Char → Option (JsonValue × List Char)
  | 0, _ => none
  | fuel + 1, l =>
    match l with
    | c :: r =>
      if c = '"' then
        match parseStringBodyAux r with
        | some (key, r2) =>
          match skipWs r2 with
          | c2 :: r3 =>
            if c2 = ':' then
              match parseValue fuel (skipWs r3) with
              | some (v, r4) =>
                match skipWs r4 with
                | c3 :: r5 =>
                  if c3 = ',' then
                    match parseObjectFields fuel (skipWs r5) with
                    | some (JsonValue.obj fs, r6) => some (.obj ((⟨key⟩, v) :: fs), r6)
                    | _ => none
                  else if c3 = rbrace then some (.obj [(⟨key⟩, v)], r5)
                  else none
                | [] => none
              | none => none
            else none
          | [] => none
        | none => none
      else none
    | [] => none

/-- Parses a non-empty element list of a JSON array (after the opening
bracket and leading whitespace). -/
def parseArrayElems : Nat → List Char → Option (JsonValue × List Char)
  | 0, _ => none
  | fuel + 1, l =>
    match parseValue fuel l with
    | some (v, r) =>
      match skipWs r with
      | c :: r2 =>
        if c = ',' then
          match parseArrayElems fuel (skipWs r2) with
          | some (JsonValue.arr vs, r3) => some (.arr (v :: vs), r3)
          | _ => none
        else if c = ']' then some (.arr [v], r2)
        else none
      | [] => none
    | none => none

end

/-- Model of `JSON.parse` on a string: a single JSON value surrounded by
nothing but whitespace, or failure. -/
def jsonParse (s : String) : Option JsonValue :=
  match parseValue (s.data.length * 2 + 2) s.data with
  | some (v, rest) => if skipWs rest = [] then some v else none
  | none => none

/-! ## JavaScript property access and string coercion -/

/-- Field lookup in a parsed JSON object.  `JSON.parse` keeps the last
duplicate key, hence the reverse. -/
def objLookup (fs : List (String × JsonValue)) (k : String) : Option JsonValue :=
  (fs.reverse.find? (fun p => p.1 == k)).map (fun p => p.2)

/-- Model of a JS property read `v[k]`: a `TypeError` on `null`
(and on `undefined`, handled at call sites), the field (or `undefined`)
on an object, and `undefined` on every other primitive. -/
def jsProp : JsonValue → String → Except Unit (Option JsonValue)
  | .null, _ => .error ()
  | .obj fs, k => .ok (objLookup fs k)
  | _, _ => .ok none

mutual

/-- Fuelled JS `String(v)` coercion (the fuel is structural bookkeeping for
nested arrays; callers pass a bound on the value's depth, which for a value
produced by `jsonParse s` is at most the length of `s`). -/
def jsToStringFuel : Nat → JsonValue → String
  | 0, _ => ""
  | _ + 1, .null => "null"
  | _ + 1, .bool true => "true"
  | _ + 1, .bool false => "false"
  | _ + 1, .num lexeme => lexeme
  | _ + 1, .str s => s
  | fuel + 1, .arr elems => jsToStringElemsFuel fuel elems
  | _ + 1, .obj _ => "[object Object]"

/-- Fuelled JS array join for `String(v)`: elements separated by commas,
`null` elements rendered empty. -/
def jsToStringElemsFuel : Nat → List JsonValue → String
  | 0, _ => ""
  | _ + 1, [] => ""
  | _ + 1, [JsonValue.null] => ""
  | fuel + 1, [v] => jsToStringFuel fuel v
  | fuel + 1, JsonValue.null :: rest => "," ++ jsToStringElemsFuel fuel rest
  | fuel + 1, v :: rest => jsToStringFuel fuel v ++ "," ++ jsToStringElemsFuel fuel rest

end

/-- String handed to the inner `JSON.parse` when the code parses
`payload.function_call.arguments`: `undefined` coerces to the literal text
`undefined`. -/
def jsCoerceForParse (fuel : Nat) : Option JsonValue → String
  | none => "undefined"
  | some v => jsToStringFuel fuel v

/-- Whether the two flush-time parses of `createFunctionCallTransformer`
both succeed on the buffered text: `JSON.parse(aggregatedResponse)`, the
property chain `payload.function_call.arguments`, and
`JSON.parse(payload.function_call.arguments)`.  When this is false the
flush body throws (`SyntaxError` or `TypeError`) before reaching the
handler. -/
def flushParsesOk (agg : String) : Bool :=
  match jsonParse agg with
  | none => false
  | some payload =>
    match jsProp payload "function_call" with
    | .error _ => false
    | .ok none => false
    | .ok (some fc) =>
      match jsProp fc "arguments" with
      | .error _ => false
      | .ok args => (jsonParse (jsCoerceForParse (agg.data.length + 1) args)).isSome

/-! ## The output envelope (`getStreamString`) -/

/-- Hexadecimal digit character, lowercase. -/
def hexDigitChar (n : Nat) : Char :=
  if n < 10 then Char.ofNat ('0'.toNat + n) else Char.ofNat ('a'.toNat + n - 10)

/-- Character escaping performed by `JSON.stringify` on strings. -/
def stringifyEscChar (c : Char) : List Char :=
  if c = '"' then ['\\', '"']
  else if c = '\\' then ['\\', '\\']
  else if c = Char.ofNat 8 then ['\\', 'b']
  else if c = '\t' then ['\\', 't']
  else if c = '\n' then ['\\', 'n']
  else if c = Char.ofNat 12 then ['\\', 'f']
  else if c = '\r' then ['\\', 'r']
  else if c.toNat < 32 then
    ['\\', 'u', '0', '0', hexDigitChar (c.toNat / 16), hexDigitChar (c.toNat % 16)]
  else [c]

/-- Model of `JSON.stringify` on a string value. -/
def jsonStringifyString (s : String) : String :=
  "\"" ++ ⟨s.data.flatMap stringifyEscChar⟩ ++ "\""

/-- Event kinds of the type-tagged envelope (`StreamStringPrefixes`). -/
inductive StreamEventKind where
  | text
  | function_call
  | data

/-- Digit prefix of each event kind. -/
def streamPrefixDigit : StreamEventKind → String
  | .text => "0"
  | .function_call => "1"
  | .data => "2"

/-- The type-tagged envelope `getStreamString`: digit prefix, colon,
JSON-encoded payload, newline. -/
def getStreamString (t : StreamEventKind) (value : String) : String :=
  streamPrefixDigit t ++ ":" ++ jsonStringifyString value ++ "\n"

/-! ## Provider chunks and the text extractor `chunkToText`

The decoded provider event is modelled by its runtime shape: optional
fields are `Option`, and the code's duck-typed discrimination
(`isChatCompletionChunk`, `isCompletion`) tests field presence on the first
choice.  A `none` models an absent or `undefined` field (and equally a
`null` value wherever the code observes only truthiness or presence). -/

deriving instance DecidableEq for Except

/-- Runtime shape of `delta.function_call`. -/
structure FunctionCallF where
  name : Option String
  arguments : Option String
deriving DecidableEq

/-- Runtime shape of `choices[0].delta`. -/
structure DeltaF where
  content : Option String
  function_call : Option FunctionCallF
deriving DecidableEq

/-- Runtime shape of one element of `choices`; both the chat fields and the
legacy completion fields live here because the code sniffs for either. -/
structure ChoiceF where
  delta : Option DeltaF
  text : Option String
  finish_reason : Option String
deriving DecidableEq

/-- Runtime shape of a decoded provider event. -/
structure ChunkF where
  choices : List ChoiceF
  conversation_id : Option String
  parent_message_id : Option String
deriving DecidableEq

/-- The source's `isChatCompletionChunk`: non-empty `choices` whose first
element has a `delta` field. -/
def isChatCompletionChunk (c : ChunkF) : Bool :=
  match c.choices.head? with
  | some ch => ch.delta.isSome
  | none => false

/-- The source's `isCompletion`: non-empty `choices` whose first element
has a `text` field. -/
def isCompletion (c : ChunkF) : Bool :=
  match c.choices.head? with
  | some ch => ch.text.isSome
  | none => false

/-- Optional chain `json.choices[0]?.delta?.function_call?.name`. -/
def fcName (c : ChunkF) : Option String :=
  ((c.choices.head?.bind (fun ch => ch.delta)).bind
    (fun d => d.function_call)).bind (fun f => f.name)

/-- Optional chain `json.choices[0]?.delta?.function_call?.arguments`. -/
def fcArguments (c : ChunkF) : Option String :=
  ((c.choices.head?.bind (fun ch => ch.delta)).bind
    (fun d => d.function_call)).bind (fun f => f.arguments)

/-- Optional chain `json.choices[0]?.finish_reason`. -/
def finishReason (c : ChunkF) : Option String :=
  c.choices.head?.bind (fun ch => ch.finish_reason)

/-- Template interpolation of an optional JS string, as in a backtick
template: an `undefined` content renders as the text `undefined`. -/
def jsTemplate : Option String → String
  | none => "undefined"
  | some s => s

/-- State of the per-stream `chunkToText` closure: the start-of-stream trim
flag of `trimStartOfStreamHelper` (model of that `ai`-package dependency:
it trims leading whitespace from each chunk until a chunk is non-empty
after trimming, then passes everything through) and the closure's own
`isFunctionStreamingIn` flag (uninitialised in the source, hence falsy). -/
structure ExtractState where
  isStreamStart : Bool
  isFunctionStreamingIn : Bool
deriving DecidableEq

/-- Initial extractor state. -/
def initExtractState : ExtractState :=
  ⟨true, false⟩

/-- One application of the `trimStartOfStreamHelper` closure. -/
def trimStartOfStream (isStart : Bool) (text : String) : Bool × String :=
  if isStart then
    let t := jsTrimStart text
    (t = "", t)
  else (false, text)

/-- The trailing side-channel fragment appended by `chunkToText` when both
`conversation_id` and `parent_message_id` are truthy. -/
def sideChannelFragment (cid pid : String) : String :=
  " \x7b\"conversation_id\":\"" ++ cid ++ "\",\"parent_message_id\":\"" ++ pid ++ "\"\x7d"

/-- One application of the `chunkToText` closure to a decoded event.
`Except.error` models a thrown `TypeError` (property access on an absent
field), which is stream-fatal.  The defensive copy `cp` of the source is
the identity on this model (`JSON.parse(JSON.stringify(json))` restores
every field the code reads), so it is inlined. -/
def chunkToTextStep (st : ExtractState) (json : ChunkF) :
    ExtractState × Except Unit String :=
  if isChatCompletionChunk json ∧ jsTruthy (fcName json) then
    ({ st with isFunctionStreamingIn := true },
      .ok ("\x7b\"function_call\": \x7b\"name\": \"" ++ (fcName json).getD ""
        ++ "\", \"arguments\": \""))
  else if isChatCompletionChunk json ∧ jsTruthy (fcArguments json) then
    (st, .ok (escapeArgChunk ((fcArguments json).getD "")))
  else if st.isFunctionStreamingIn
      ∧ (finishReason json = some "function_call" ∨ finishReason json = some "stop") then
    ({ st with isFunctionStreamingIn := false }, .ok "\"\x7d\x7d")
  else
    match json.choices.head? with
    | none => (st, .error ())
    | some ch =>
      match ch.delta with
      | none => (st, .error ())
      | some d =>
        let content : Option String :=
          if jsTruthy json.conversation_id ∧ jsTruthy json.parent_message_id then
            some (jsTemplate d.content
              ++ sideChannelFragment (json.conversation_id.getD "")
                (json.parent_message_id.getD ""))
          else d.content
        let valForTrim : String :=
          if jsTruthy content then content.getD ""
          else if ch.text.isSome then ch.text.getD ""
          else ""
        let ts := trimStartOfStream st.isStreamStart valForTrim
        ({ st with isStreamStart := ts.1 }, .ok ts.2)

/-- The `streamable` async generator: extracts each chunk in order,
yielding each truthy (non-empty) text; a thrown extraction error aborts
the stream. -/
def runStreamable : ExtractState → List ChunkF → Except Unit (List String)
  | _, [] => .ok []
  | st, c :: cs =>
    match chunkToTextStep st c with
    | (st2, .ok t) =>
      (runStreamable st2 cs).map (fun rest => if t ≠ "" then t :: rest else rest)
    | (_, .error e) => .error e

/-! ## The function-call transformer `createFunctionCallTransformer`

The transformer is installed on the stream only when an
`experimental_onFunctionCall` handler is registered (`OpenAIStream` pipes
through it exactly in that case), so the handler's presence is implicit in
this model.  Incoming byte chunks are represented by the strings
`createChunkDecoder()` decodes them to, and outgoing byte chunks by the
strings passed to `TextEncoder`.  The registered `onFinal` callback is
represented by the list of argument strings it is invoked with. -/

/-- Closure state of `createFunctionCallTransformer`:
`isFirstChunk`, `aggregatedResponse`, `aggregatedFinalCompletionResponse`
and `isFunctionStreamingIn`. -/
structure FCState where
  isFirstChunk : Bool
  aggregatedResponse : String
  aggregatedFinal : String
  isFunctionStreamingIn : Bool
deriving DecidableEq

/-- Initial transformer state. -/
def initFCState : FCState :=
  ⟨true, "", "", false⟩

/-- The function-call opener marker tested with `startsWith`. -/
def fcMarker : String :=
  "\x7b\"function_call\":"

/-- Downstream form of a passthrough text chunk: the type-tagged envelope
in complex mode (`experimental_streamData`), the raw bytes otherwise. -/
def emitChunk (complex : Bool) (m : String) : String :=
  if complex then getStreamString .text m else m

/-- Downstream form of the flush-time function-call event. -/
def emitFunctionCallEvent (complex : Bool) (agg : String) : String :=
  if complex then getStreamString .function_call agg else agg

/-- The `transform(chunk, controller)` body: accumulate the decoded message
into `aggregatedFinalCompletionResponse`; on the first chunk matching the
marker enter buffering; while buffering, accumulate silently; otherwise
forward the chunk downstream. -/
def transformStep (complex : Bool) (st : FCState) (message : String) :
    FCState × List String :=
  let st1 : FCState := { st with aggregatedFinal := st.aggregatedFinal ++ message }
  if st1.isFirstChunk && jsStartsWith message fcMarker then
    ({ st1 with
        isFunctionStreamingIn := true,
        aggregatedResponse := st1.aggregatedResponse ++ message,
        isFirstChunk := false }, [])
  else if !st1.isFunctionStreamingIn then
    (st1, [emitChunk complex message])
  else
    ({ st1 with aggregatedResponse := st1.aggregatedResponse ++ message }, [])

/-- Folds `transformStep` over the stream's decoded chunks, collecting the
downstream outputs in order. -/
def runTransformList (complex : Bool) : FCState → List String → FCState × List String
  | st, [] => (st, [])
  | st, m :: ms =>
    let p := transformStep complex st m
    let q := runTransformList complex p.1 ms
    (q.1, p.2 ++ q.2)

/-- Behaviour of the registered `experimental_onFunctionCall` handler, as
observed by the flush body: it may throw, resolve to nothing, resolve to a
string, or return a continuation stream.  A continuation is represented by
the decoded text chunks the recursive inner pipeline feeds to its own
`createFunctionCallTransformer`, together with the behaviour of the handler
at the next recursion level. -/
inductive HandlerSpec where
  | fault
  | noResponse
  | strResp (s : String)
  | continuation (messages : List String) (inner : HandlerSpec)

/-- Whether a handler behaviour returns a continuation stream. -/
def HandlerSpec.isContinuation : HandlerSpec → Bool
  | .continuation _ _ => true
  | _ => false

/-- Observable outcome of a full transformer run: the downstream outputs in
order, the arguments `onFinal` is invoked with in order, and whether the
flush promise rejected (erroring the stream). -/
structure RunResult where
  outputs : List String
  finals : List String
  threw : Bool
deriving DecidableEq

/-- The scoped `finally` of the flush body:
`if (callbacks.onFinal && aggregatedFinalCompletionResponse)`. -/
def finalsFor (hasOnFinal : Bool) (st : FCState) : List String :=
  if hasOnFinal ∧ st.aggregatedFinal ≠ "" then [st.aggregatedFinal] else []

/-- A full run of the transformer over a stream: all `transform` calls,
then `flush`.  In the flush body, `isEndOfFunction` is
`!isFirstChunk && handler && isFunctionStreamingIn`; the two `JSON.parse`
calls throw when `flushParsesOk` is false; a falsy handler response
(nothing, or the empty string) emits the buffered text as a function-call
event; a string response is emitted as a text event; a continuation
recursively runs a fresh pipeline (the outer `callbacks.onFinal` is set to
`undefined` first, while the copied callbacks handed to the inner pipeline
retain it) and relays its outputs.  The `finally` clause fires `onFinal` on
every exit path of the flush body. -/
def runAll (complex hasOnFinal : Bool) : HandlerSpec → List String → RunResult
  | h, inputs =>
    let p := runTransformList complex initFCState inputs
    let st := p.1
    let flushRes : RunResult :=
      if st.isFirstChunk = false ∧ st.isFunctionStreamingIn = true then
        if flushParsesOk st.aggregatedResponse then
          match h with
          | .fault => ⟨[], finalsFor hasOnFinal st, true⟩
          | .noResponse =>
            ⟨[emitFunctionCallEvent complex st.aggregatedResponse],
              finalsFor hasOnFinal st, false⟩
          | .strResp s =>
            if s = "" then
              ⟨[emitFunctionCallEvent complex st.aggregatedResponse],
                finalsFor hasOnFinal st, false⟩
            else ⟨[emitChunk complex s], finalsFor hasOnFinal st, false⟩
          | .continuation msgs inner =>
            let r := runAll complex hasOnFinal inner msgs
            ⟨r.outputs, r.finals, r.threw⟩
        else ⟨[], finalsFor hasOnFinal st, true⟩
      else ⟨[], finalsFor hasOnFinal st, false⟩
    ⟨p.2 ++ flushRes.outputs, flushRes.finals, flushRes.threw⟩

/-! ### Transformer lemmas -/

/-! ## Concrete sample values and plain-chunk predicates -/

/-- Plain-text chat chunk: a first choice with a `delta` carrying no
function call, no legacy `text` field, and no complete side-channel pair
on the event. -/
def plainChatChunk (c : ChunkF) : Bool :=
  match c.choices.head? with
  | some ch =>
    (match ch.delta with
      | some d => d.function_call.isNone
      | none => false)
    && ch.text.isNone
    && !(jsTruthy c.conversation_id && jsTruthy c.parent_message_id)
  | none => false

/-- The `delta.content` of a chunk's first choice, the empty string when
absent. -/
def chunkContent (c : ChunkF) : String :=
  match c.choices.head? with
  | some ch =>
    match ch.delta with
    | some d => d.content.getD ""
    | none => ""
  | none => ""

/-- A well-formed buffered function-call payload used as a concrete
input. -/
def sampleFcPayload : String :=
  "\x7b\"function_call\": \x7b\"name\": \"f\", \"arguments\": \"\x7b\x7d\"\x7d\x7d"

/-- A decoded event carrying only a `finish_reason` on its first choice:
neither a chat chunk nor a legacy completion chunk. -/
def stopOnlyChunk : ChunkF :=
  ⟨[⟨none, none, some "stop"⟩], none, none⟩

/-! ### Round-trip lemmas for the escaper -/

theorem replaceChar_cons (p : Char) (r : List Char) (c : Char) (b : List Char) :
    replaceChar p r (c :: b) = (if c = p then r else [c]) ++ replaceChar p r b := by
  simp [replaceChar]

theorem replaceChar_append (p : Char) (r : List Char) (a b : List Char) :
    replaceChar p r (a ++ b) = replaceChar p r a ++ replaceChar p r b := by
  simp [replaceChar]

theorem escChain_eq_flatMap (l : List Char) :
    replaceChar (Char.ofNat 12) ['\\', 'f']
      (replaceChar '\t' ['\\', 't']
        (replaceChar '\r' ['\\', 'r']
          (replaceChar '\n' ['\\', 'n']
            (replaceChar '"' ['\\', '"']
              (replaceChar '/' ['\\', '/']
                (replaceChar '\\' ['\\', '\\'] l)))))) = l.flatMap escMapChar := by
  induction l with
  | nil => rfl
  | cons c l ih =>
    rw [replaceChar_cons, replaceChar_append, replaceChar_append, replaceChar_append,
      replaceChar_append, replaceChar_append, replaceChar_append, List.flatMap_cons, ih]
    congr 1
    by_cases h1 : c = '\\'
    · subst h1; decide
    by_cases h2 : c = '/'
    · subst h2; decide
    by_cases h3 : c = '"'
    · subst h3; decide
    by_cases h4 : c = '\n'
    · subst h4; decide
    by_cases h5 : c = '\r'
    · subst h5; decide
    by_cases h6 : c = '\t'
    · subst h6; decide
    by_cases h7 : c = Char.ofNat 12
    · subst h7; decide
    simp [replaceChar, escMapChar, h1, h2, h3, h4, h5, h6, h7]

theorem escapeArgChunk_data (s : String) :
    (escapeArgChunk s).data = s.data.flatMap escMapChar :=
  escChain_eq_flatMap s.data

theorem parse_escaped (l tail : List Char)
    (h : ∀ c ∈ l, c.toNat < 32 → c ∈ handledControlChars) :
    parseStringBodyAux (l.flatMap escMapChar ++ '"' :: tail) = some (l, tail) := by
  induction l with
  | nil =>
    show parseStringBodyAux ('"' :: tail) = some ([], tail)
    simp [parseStringBodyAux]
  | cons c l ih =>
    have hl : ∀ c ∈ l, c.toNat < 32 → c ∈ handledControlChars :=
      fun c hc => h c (List.mem_cons_of_mem _ hc)
    have hc : c.toNat < 32 → c ∈ handledControlChars := h c (List.mem_cons_self _ _)
    rw [List.flatMap_cons, List.append_assoc]
    by_cases h1 : c = '\\'
    · subst h1
      show parseStringBodyAux ('\\' :: '\\' :: (l.flatMap escMapChar ++ '"' :: tail)) = _
      simp [parseStringBodyAux, parseEscapeSeq, escSimple, ih hl]
    by_cases h2 : c = '/'
    · subst h2
      show parseStringBodyAux ('\\' :: '/' :: (l.flatMap escMapChar ++ '"' :: tail)) = _
      simp [parseStringBodyAux, parseEscapeSeq, escSimple, ih hl]
    by_cases h3 : c = '"'
    · subst h3
      show parseStringBodyAux ('\\' :: '"' :: (l.flatMap escMapChar ++ '"' :: tail)) = _
      simp [parseStringBodyAux, parseEscapeSeq, escSimple, ih hl]
    by_cases h4 : c = '\n'
    · subst h4
      show parseStringBodyAux ('\\' :: 'n' :: (l.flatMap escMapChar ++ '"' :: tail)) = _
      simp [parseStringBodyAux, parseEscapeSeq, escSimple, ih hl]
    by_cases h5 : c = '\r'
    · subst h5
      show parseStringBodyAux ('\\' :: 'r' :: (l.flatMap escMapChar ++ '"' :: tail)) = _
      simp [parseStringBodyAux, parseEscapeSeq, escSimple, ih hl]
    by_cases h6 : c = '\t'
    · subst h6
      show parseStringBodyAux ('\\' :: 't' :: (l.flatMap escMapChar ++ '"' :: tail)) = _
      simp [parseStringBodyAux, parseEscapeSeq, escSimple, ih hl]
    by_cases h7 : c = Char.ofNat 12
    · subst h7
      show parseStringBodyAux ('\\' :: 'f' :: (l.flatMap escMapChar ++ '"' :: tail)) = _
      simp [parseStringBodyAux, parseEscapeSeq, escSimple, ih hl]
    · have hesc : escMapChar c = [c] := by
        simp [escMapChar, h1, h2, h3, h4, h5, h6, h7]
      have hge : ¬ c.toNat < 32 := by
        intro hlt
        have hc2 := hc hlt
        simp only [handledControlChars, List.mem_cons, List.not_mem_nil, or_false] at hc2
        rcases hc2 with h | h | h | h
        · exact h4 h
        · exact h5 h
        · exact h6 h
        · exact h7 h
      rw [hesc]
      show parseStringBodyAux (c :: (l.flatMap escMapChar ++ '"' :: tail)) = _
      simp [parseStringBodyAux, h1, h3, hge, ih hl]

/-- C2 (amended): for every argument string whose control characters are
among newline, carriage-return, tab and form-feed, the escaping performed
by the text extractor followed by JSON string parsing reproduces the
original argument text exactly. -/
theorem c2_escape_roundtrip (s : String)
    (h : ∀ c ∈ s.data, c.toNat < 32 → c ∈ handledControlChars) :
    jsonParseStringLit ("\"" ++ escapeArgChunk s ++ "\"") = some s := by
  have hdata : ("\"" ++ escapeArgChunk s ++ "\"").data
      = '"' :: (s.data.flatMap escMapChar ++ '"' :: []) := by
    rw [String.data_append, String.data_append, escapeArgChunk_data]
    rfl
  unfold jsonParseStringLit
  rw [hdata]
  show ((if '"' = '"' then
      (match parseStringBodyAux (s.data.flatMap escMapChar ++ '"' :: []) with
      | some (content, []) => some content
      | _ => none)
    else none)).map (fun l => (⟨l⟩ : String)) = some s
  rw [if_pos rfl, parse_escaped s.data [] h]
  rfl

/-- C2 witness: a concrete argument string containing backslash, slash,
quote, newline and tab round-trips through escaping and JSON parsing. -/
theorem c2_escape_roundtrip_witness :
    (∀ c ∈ ("a\\b/\"\n\tc" : String).data, c.toNat < 32 → c ∈ handledControlChars) ∧
    jsonParseStringLit ("\"" ++ escapeArgChunk "a\\b/\"\n\tc" ++ "\"") = some "a\\b/\"\n\tc" :=
  ⟨by decide, c2_escape_roundtrip "a\\b/\"\n\tc" (by decide)⟩

/-- C2 counterexample: the backspace control character U+0008 is not
escaped by the replace chain, so the escaped fragment is not a valid JSON
string body and parsing fails instead of reproducing the original text. -/
theorem c2_backspace_cex :
    jsonParseStringLit ("\"" ++ escapeArgChunk (String.mk [Char.ofNat 8]) ++ "\"") = none ∧
    ¬ jsonParseStringLit ("\"" ++ escapeArgChunk (String.mk [Char.ofNat 8]) ++ "\"")
        = some (String.mk [Char.ofNat 8]) := by
  constructor
  · decide
  · decide

theorem strConcat_append (a b : List String) :
    strConcat (a ++ b) = strConcat a ++ strConcat b := by
  induction a with
  | nil =>
    show strConcat b = strConcat [] ++ strConcat b
    show strConcat b = "" ++ strConcat b
    exact (String.empty_append _).symm
  | cons x a ih =>
    show x ++ strConcat (a ++ b) = (x ++ strConcat a) ++ strConcat b
    rw [ih, String.append_assoc]

theorem runTransformList_passthrough (complex : Bool) (st : FCState) (ms : List String)
    (hfn : st.isFunctionStreamingIn = false)
    (hms : ∀ m ∈ ms, jsStartsWith m fcMarker = false) :
    runTransformList complex st ms
      = ({ st with aggregatedFinal := st.aggregatedFinal ++ strConcat ms },
         ms.map (emitChunk complex)) := by
  induction ms generalizing st with
  | nil =>
    simp [runTransformList, strConcat]
  | cons m ms ih =>
    have hm : jsStartsWith m fcMarker = false := hms m (List.mem_cons_self _ _)
    have hrest : ∀ x ∈ ms, jsStartsWith x fcMarker = false :=
      fun x hx => hms x (List.mem_cons_of_mem _ hx)
    obtain ⟨fc, ar, af, fs⟩ := st
    simp only at hfn
    subst hfn
    simp only [runTransformList, transformStep, hm, Bool.and_false, Bool.false_eq_true,
      if_false, Bool.not_false, if_true]
    rw [ih _ rfl hrest]
    simp [strConcat, String.append_assoc]

theorem runTransformList_buffering (complex : Bool) (st : FCState) (ms : List String)
    (hfc : st.isFirstChunk = false)
    (hfn : st.isFunctionStreamingIn = true) :
    runTransformList complex st ms
      = ({ st with
            aggregatedFinal := st.aggregatedFinal ++ strConcat ms,
            aggregatedResponse := st.aggregatedResponse ++ strConcat ms }, []) := by
  induction ms generalizing st with
  | nil =>
    simp [runTransformList, strConcat]
  | cons m ms ih =>
    obtain ⟨fc, ar, af, fs⟩ := st
    simp only at hfc hfn
    subst hfc; subst hfn
    simp only [runTransformList, transformStep, Bool.false_and, Bool.false_eq_true, if_false,
      Bool.not_true]
    rw [ih _ rfl rfl]
    simp [strConcat, String.append_assoc]

theorem runTransformList_split_gen (complex : Bool) (af : String) (pre : List String)
    (opener : String) (post : List String)
    (hpre : ∀ m ∈ pre, jsStartsWith m fcMarker = false)
    (hop : jsStartsWith opener fcMarker = true) :
    runTransformList complex ⟨true, "", af, false⟩ (pre ++ opener :: post)
      = (⟨false, opener ++ strConcat post,
          af ++ (strConcat pre ++ (opener ++ strConcat post)), true⟩,
         pre.map (emitChunk complex)) := by
  induction pre generalizing af with
  | nil =>
    simp only [List.nil_append, List.map_nil]
    show runTransformList complex ⟨true, "", af, false⟩ (opener :: post) = _
    simp only [runTransformList, transformStep, hop, Bool.and_true, if_true]
    rw [runTransformList_buffering complex _ post rfl rfl]
    simp [strConcat, String.append_assoc, String.empty_append]
  | cons m pre ih =>
    have hm : jsStartsWith m fcMarker = false := hpre m (List.mem_cons_self _ _)
    have hrest : ∀ x ∈ pre, jsStartsWith x fcMarker = false :=
      fun x hx => hpre x (List.mem_cons_of_mem _ hx)
    show runTransformList complex ⟨true, "", af, false⟩ (m :: (pre ++ opener :: post)) = _
    simp only [runTransformList, transformStep, hm, Bool.and_false, Bool.false_eq_true,
      if_false, Bool.not_false, if_true]
    rw [ih (af ++ m) hrest]
    simp [strConcat, String.append_assoc, List.map_cons]

theorem runTransformList_split (complex : Bool) (pre : List String) (opener : String)
    (post : List String)
    (hpre : ∀ m ∈ pre, jsStartsWith m fcMarker = false)
    (hop : jsStartsWith opener fcMarker = true) :
    runTransformList complex initFCState (pre ++ opener :: post)
      = (⟨false, opener ++ strConcat post, strConcat pre ++ (opener ++ strConcat post), true⟩,
         pre.map (emitChunk complex)) := by
  have h := runTransformList_split_gen complex "" pre opener post hpre hop
  rw [String.empty_append] at h
  exact h

theorem transformStep_aggFinal (complex : Bool) (st : FCState) (m : String) :
    (transformStep complex st m).1.aggregatedFinal = st.aggregatedFinal ++ m := by
  obtain ⟨fc, ar, af, fs⟩ := st
  simp only [transformStep]
  split_ifs <;> rfl

theorem runTransformList_aggFinal (complex : Bool) (st : FCState) (ms : List String) :
    (runTransformList complex st ms).1.aggregatedFinal = st.aggregatedFinal ++ strConcat ms := by
  induction ms generalizing st with
  | nil =>
    show st.aggregatedFinal = st.aggregatedFinal ++ strConcat []
    rw [show strConcat [] = "" from rfl, String.append_empty]
  | cons m ms ih =>
    show (runTransformList complex (transformStep complex st m).1 ms).1.aggregatedFinal = _
    rw [ih, transformStep_aggFinal]
    show st.aggregatedFinal ++ m ++ strConcat ms = st.aggregatedFinal ++ (m ++ strConcat ms)
    rw [String.append_assoc]

/-! ### Trim lemmas -/

theorem jsTrimStart_append_empty (a b : String) (h : jsTrimStart a = "") :
    jsTrimStart (a ++ b) = jsTrimStart b := by
  have ha : a.data.dropWhile isJsWhitespace = [] := congrArg String.data h
  unfold jsTrimStart
  rw [String.data_append, List.dropWhile_append, ha]
  simp

theorem jsTrimStart_append_ne (a b : String) (h : jsTrimStart a ≠ "") :
    jsTrimStart (a ++ b) = jsTrimStart a ++ b := by
  have ha : a.data.dropWhile isJsWhitespace ≠ [] := by
    intro hx
    exact h (congrArg String.mk hx)
  unfold jsTrimStart
  rw [String.data_append, List.dropWhile_append, if_neg (by simpa using ha)]
  cases b
  rfl

theorem append_sideChannel_ne_empty (s a b : String) :
    s ++ sideChannelFragment a b ≠ "" := by
  intro h
  have hd : s.data ++ (sideChannelFragment a b).data = [] := by
    have := congrArg String.data h
    rw [String.data_append] at this
    exact this
  have h2 : (sideChannelFragment a b).data = [] := (List.append_eq_nil.mp hd).2
  unfold sideChannelFragment at h2
  rw [String.data_append, String.data_append, String.data_append, String.data_append] at h2
  have h3 := (List.append_eq_nil.mp h2).2
  revert h3
  decide

/-! ### Claim C10 -/

/-- C10 (confirmed): for every chunk whose first choice lacks a `delta`
field — in particular a legacy completion chunk carrying only a `text`
field — the plain-content path of `chunkToText` unconditionally reads
`choices[0].delta.content`, so extraction throws instead of returning the
`text` field; consequently the legacy text-extraction branch can only run
for chunks that also carry a `delta` object. -/
theorem c10_missing_delta_errors (st : ExtractState) (c : ChunkF) (ch : ChoiceF)
    (rest : List ChoiceF)
    (hfn : st.isFunctionStreamingIn = false)
    (hch : c.choices = ch :: rest)
    (hd : ch.delta = none) :
    (chunkToTextStep st c).2 = .error () := by
  have hchat : isChatCompletionChunk c = false := by
    simp [isChatCompletionChunk, hch, hd]
  simp [chunkToTextStep, hchat, hfn, hch, hd]

/-- C10 witness: a legacy completion chunk with only `text` and a
`finish_reason`, processed outside of function streaming, throws. -/
theorem c10_missing_delta_errors_witness :
    ((⟨true, false⟩ : ExtractState).isFunctionStreamingIn = false) ∧
    (chunkToTextStep ⟨true, false⟩
      ⟨[⟨none, some "legacy text", some "stop"⟩], none, none⟩).2 = .error () :=
  ⟨rfl, c10_missing_delta_errors ⟨true, false⟩ _ ⟨none, some "legacy text", some "stop"⟩ []
    rfl rfl rfl⟩

/-! ### Claim C6 -/

/-- C6 (amended): for every decoded event that is neither a chat chunk nor
a legacy completion chunk, extraction throws a stream-fatal error — except
in one case the original claim misses: while a function call is streaming
in, an event whose first choice carries `finish_reason` `"function_call"`
or `"stop"` (even with neither `delta` nor `text`) is consumed by the
closing branch and yields the closer without any error. -/
theorem c6_misshapen_event_errors (st : ExtractState) (c : ChunkF)
    (hchat : isChatCompletionChunk c = false)
    (_hcomp : isCompletion c = false)
    (hnf : ¬ (st.isFunctionStreamingIn = true ∧
      (finishReason c = some "function_call" ∨ finishReason c = some "stop"))) :
    (chunkToTextStep st c).2 = .error () := by
  have hdelta : ∀ ch, c.choices.head? = some ch → ch.delta = none := by
    intro ch hh
    cases hd : ch.delta with
    | none => rfl
    | some d =>
      rw [isChatCompletionChunk, hh] at hchat
      simp [hd] at hchat
  by_cases hfn : st.isFunctionStreamingIn = true
  · have h3a : ¬ finishReason c = some "function_call" :=
      fun hx => hnf ⟨hfn, Or.inl hx⟩
    have h3b : ¬ finishReason c = some "stop" :=
      fun hx => hnf ⟨hfn, Or.inr hx⟩
    cases hh : c.choices.head? with
    | none => simp [chunkToTextStep, hchat, h3a, h3b, hh]
    | some ch => simp [chunkToTextStep, hchat, h3a, h3b, hh, hdelta ch hh]
  · have hfn2 : st.isFunctionStreamingIn = false := by
      cases hb : st.isFunctionStreamingIn
      · rfl
      · exact absurd hb hfn
    cases hh : c.choices.head? with
    | none => simp [chunkToTextStep, hchat, hfn2, hh]
    | some ch => simp [chunkToTextStep, hchat, hfn2, hh, hdelta ch hh]

/-- C6 witness: an event with an empty `choices` array, outside of
function streaming, is stream-fatal. -/
theorem c6_misshapen_event_errors_witness :
    isChatCompletionChunk ⟨[], none, none⟩ = false ∧
    isCompletion ⟨[], none, none⟩ = false ∧
    (chunkToTextStep ⟨true, false⟩ (⟨[], none, none⟩ : ChunkF)).2 = .error () :=
  ⟨by decide, by decide,
    c6_misshapen_event_errors ⟨true, false⟩ ⟨[], none, none⟩ (by decide) (by decide) (by decide)⟩

/-- C6 counterexample: while a function call is streaming in, the event
`stopOnlyChunk` is neither a chat chunk nor a legacy completion chunk, yet
extraction succeeds with the function-call closer instead of failing
fast. -/
theorem c6_finish_reason_cex :
    isChatCompletionChunk stopOnlyChunk = false ∧
    isCompletion stopOnlyChunk = false ∧
    (chunkToTextStep ⟨true, true⟩ stopOnlyChunk).2 = .ok "\"\x7d\x7d" ∧
    ¬ (chunkToTextStep ⟨true, true⟩ stopOnlyChunk).2 = .error () := by
  refine ⟨by decide, by decide, by decide, by decide⟩

/-! ### Claim C9 -/

/-- C9 (confirmed): on the plain-content path, when both `conversation_id`
and `parent_message_id` are truthy the extractor appends the fixed
side-channel fragment to the chunk's content before the start-of-stream
trim; when either is missing or falsy the content reaches the trimmer
unchanged. -/
theorem c9_side_channel_append (st : ExtractState) (c : ChunkF) (ch : ChoiceF)
    (rest : List ChoiceF) (d : DeltaF) (cont : String)
    (hfn : st.isFunctionStreamingIn = false)
    (hch : c.choices = ch :: rest)
    (hd : ch.delta = some d)
    (hnofc : d.function_call = none)
    (htext : ch.text = none)
    (hcont : d.content = some cont) :
    (jsTruthy c.conversation_id = true → jsTruthy c.parent_message_id = true →
      (chunkToTextStep st c).2 = .ok ((trimStartOfStream st.isStreamStart
        (cont ++ sideChannelFragment (c.conversation_id.getD "")
          (c.parent_message_id.getD ""))).2)) ∧
    (¬ (jsTruthy c.conversation_id = true ∧ jsTruthy c.parent_message_id = true) →
      (chunkToTextStep st c).2 = .ok ((trimStartOfStream st.isStreamStart cont).2)) := by
  have hh : c.choices.head? = some ch := by rw [hch]; rfl
  have hchat : isChatCompletionChunk c = true := by
    simp [isChatCompletionChunk, hh, hd]
  have hname : fcName c = none := by simp [fcName, hh, hd, hnofc]
  have hargs : fcArguments c = none := by simp [fcArguments, hh, hd, hnofc]
  have hjnone : jsTruthy none = false := rfl
  constructor
  · intro hc1 hc2
    have hne := append_sideChannel_ne_empty cont (c.conversation_id.getD "")
      (c.parent_message_id.getD "")
    have hvt : jsTruthy (some (cont ++ sideChannelFragment (c.conversation_id.getD "")
        (c.parent_message_id.getD ""))) = true := by
      simp only [jsTruthy]
      exact decide_eq_true hne
    simp [chunkToTextStep, hchat, hname, hargs, hfn, hh, hd, hcont, hc1, hc2,
      hjnone, hvt, jsTemplate]
  · intro hnc
    have hfalse : jsTruthy c.conversation_id = false ∨ jsTruthy c.parent_message_id = false := by
      by_cases hb1 : jsTruthy c.conversation_id = true
      · by_cases hb2 : jsTruthy c.parent_message_id = true
        · exact absurd ⟨hb1, hb2⟩ hnc
        · exact Or.inr (by simpa using hb2)
      · exact Or.inl (by simpa using hb1)
    by_cases hs : cont = ""
    · subst hs
      have hvt : jsTruthy (some "") = false := rfl
      rcases hfalse with hb | hb <;>
        simp [chunkToTextStep, hchat, hname, hargs, hfn, hh, hd, hcont, hb,
          hjnone, hvt, htext]
    · have hvt : jsTruthy (some cont) = true := by
        simp only [jsTruthy]
        exact decide_eq_true hs
      rcases hfalse with hb | hb <;>
        simp [chunkToTextStep, hchat, hname, hargs, hfn, hh, hd, hcont, hb,
          hjnone, hvt]

/-- C9 witness: a concrete chunk with both side-channel fields gets the
fragment appended; dropping one field leaves the content untouched. -/
theorem c9_side_channel_append_witness :
    (chunkToTextStep ⟨false, false⟩
        ⟨[⟨some ⟨some "hi", none⟩, none, none⟩], some "c1", some "p1"⟩).2
      = .ok ("hi" ++ sideChannelFragment "c1" "p1") ∧
    (chunkToTextStep ⟨false, false⟩
        ⟨[⟨some ⟨some "hi", none⟩, none, none⟩], some "c1", none⟩).2
      = .ok "hi" := by
  constructor
  · have h := (c9_side_channel_append ⟨false, false⟩
      ⟨[⟨some ⟨some "hi", none⟩, none, none⟩], some "c1", some "p1"⟩
      ⟨some ⟨some "hi", none⟩, none, none⟩ [] ⟨some "hi", none⟩ "hi"
      rfl rfl rfl rfl rfl rfl).1 (by decide) (by decide)
    rw [h]
    decide
  · have h := (c9_side_channel_append ⟨false, false⟩
      ⟨[⟨some ⟨some "hi", none⟩, none, none⟩], some "c1", none⟩
      ⟨some ⟨some "hi", none⟩, none, none⟩ [] ⟨some "hi", none⟩ "hi"
      rfl rfl rfl rfl rfl rfl).2 (by decide)
    rw [h]
    decide

/-! ### Claim C8 -/

theorem runStreamable_plain (b : Bool) (chunks : List ChunkF)
    (h : ∀ x ∈ chunks, plainChatChunk x = true) :
    ∃ outs, runStreamable ⟨b, false⟩ chunks = .ok outs ∧
      strConcat outs
        = (if b then jsTrimStart (strConcat (chunks.map chunkContent))
           else strConcat (chunks.map chunkContent)) := by
  induction chunks generalizing b with
  | nil =>
    refine ⟨[], rfl, ?_⟩
    cases b <;> decide
  | cons c cs ih =>
    have hc := h c (List.mem_cons_self _ _)
    have hcs : ∀ x ∈ cs, plainChatChunk x = true := fun x hx => h x (List.mem_cons_of_mem _ hx)
    cases hh : c.choices.head? with
    | none =>
      rw [plainChatChunk, hh] at hc
      simp at hc
    | some ch =>
      cases hd : ch.delta with
      | none =>
        rw [plainChatChunk, hh] at hc
        simp [hd] at hc
      | some d =>
        rw [plainChatChunk, hh] at hc
        simp only [hd, Bool.and_eq_true, Bool.not_eq_true'] at hc
        obtain ⟨⟨hfcb, htxb⟩, hsideb⟩ := hc
        have hfc : d.function_call = none := Option.isNone_iff_eq_none.mp hfcb
        have htx : ch.text = none := Option.isNone_iff_eq_none.mp htxb
        have hside2 : ¬ (jsTruthy c.conversation_id = true ∧
            jsTruthy c.parent_message_id = true) := by
          intro hx
          rw [hx.1, hx.2] at hsideb
          cases hsideb
        have hchat : isChatCompletionChunk c = true := by
          simp [isChatCompletionChunk, hh, hd]
        have hname : fcName c = none := by simp [fcName, hh, hd, hfc]
        have hargs : fcArguments c = none := by simp [fcArguments, hh, hd, hfc]
        have hcontent : chunkContent c = d.content.getD "" := by
          simp [chunkContent, hh, hd]
        have hjnone : jsTruthy none = false := rfl
        have hval : chunkToTextStep ⟨b, false⟩ c
            = (⟨(trimStartOfStream b (d.content.getD "")).1, false⟩,
               .ok ((trimStartOfStream b (d.content.getD "")).2)) := by
          rcases hdc : d.content with _ | s
          · simp [chunkToTextStep, hchat, hname, hargs, hh, hd, hdc, hside2,
              hjnone, htx]
          · by_cases hs : s = ""
            · subst hs
              have hvt0 : jsTruthy (some "") = false := rfl
              simp [chunkToTextStep, hchat, hname, hargs, hh, hd, hdc, hside2,
                hjnone, hvt0, htx]
            · have hvt : jsTruthy (some s) = true := by
                simp only [jsTruthy]
                exact decide_eq_true hs
              simp [chunkToTextStep, hchat, hname, hargs, hh, hd, hdc, hside2,
                hjnone, hvt]
        have hrun : runStreamable ⟨b, false⟩ (c :: cs)
            = (runStreamable ⟨(trimStartOfStream b (d.content.getD "")).1, false⟩ cs).map
                (fun rest => if (trimStartOfStream b (d.content.getD "")).2 ≠ "" then
                  (trimStartOfStream b (d.content.getD "")).2 :: rest else rest) := by
          simp only [runStreamable, hval]
        cases b with
        | false =>
          obtain ⟨outs2, ho2, hc2⟩ := ih false hcs
          have htriv : trimStartOfStream false (d.content.getD "") = (false, d.content.getD "") :=
            rfl
          rw [htriv] at hrun
          refine ⟨if d.content.getD "" ≠ "" then d.content.getD "" :: outs2 else outs2, ?_, ?_⟩
          · rw [hrun, ho2]
            rfl
          · simp only [if_false, Bool.false_eq_true] at hc2 ⊢
            rw [List.map_cons, show strConcat (chunkContent c :: cs.map chunkContent)
              = chunkContent c ++ strConcat (cs.map chunkContent) from rfl, hcontent]
            by_cases hs : d.content.getD "" = ""
            · rw [if_neg (by simpa using hs), hc2, hs, String.empty_append]
            · rw [if_pos (by simpa using hs)]
              show d.content.getD "" ++ strConcat outs2 = _
              rw [hc2]
        | true =>
          by_cases hts : jsTrimStart (d.content.getD "") = ""
          · have htr : trimStartOfStream true (d.content.getD "")
                = (true, jsTrimStart (d.content.getD "")) := by
              simp [trimStartOfStream, hts]
            rw [htr] at hrun
            obtain ⟨outs2, ho2, hc2⟩ := ih true hcs
            refine ⟨outs2, ?_, ?_⟩
            · rw [hrun, ho2]
              simp [hts, Except.map]
            · simp only [if_pos] at hc2 ⊢
              rw [List.map_cons, show strConcat (chunkContent c :: cs.map chunkContent)
                = chunkContent c ++ strConcat (cs.map chunkContent) from rfl, hcontent,
                jsTrimStart_append_empty _ _ hts]
              exact hc2
          · have htr : trimStartOfStream true (d.content.getD "")
                = (false, jsTrimStart (d.content.getD "")) := by
              simp [trimStartOfStream, hts]
            rw [htr] at hrun
            obtain ⟨outs2, ho2, hc2⟩ := ih false hcs
            refine ⟨jsTrimStart (d.content.getD "") :: outs2, ?_, ?_⟩
            · rw [hrun, ho2]
              simp [hts, Except.map]
            · simp only [if_false, Bool.false_eq_true] at hc2
              simp only [if_pos]
              rw [List.map_cons, show strConcat (chunkContent c :: cs.map chunkContent)
                = chunkContent c ++ strConcat (cs.map chunkContent) from rfl, hcontent,
                jsTrimStart_append_ne _ _ hts]
              show jsTrimStart (d.content.getD "") ++ strConcat outs2 = _
              rw [hc2]

/-- C8 (confirmed): for every upstream stream of plain-text chat chunks
(no function-call fragments, no complete side-channel pair), the
concatenation of all emitted output text equals the concatenation of all
`delta.content` fields, modulo the single start-of-stream trim. -/
theorem c8_plain_text_concat (chunks : List ChunkF)
    (h : ∀ x ∈ chunks, plainChatChunk x = true) :
    ∃ outs, runStreamable initExtractState chunks = .ok outs ∧
      strConcat outs = jsTrimStart (strConcat (chunks.map chunkContent)) := by
  have hx := runStreamable_plain true chunks h
  simpa [initExtractState] using hx

/-- C8 witness: a concrete two-chunk plain-text stream whose leading
whitespace is trimmed once. -/
theorem c8_plain_text_concat_witness :
    (∀ x ∈ [(⟨[⟨some ⟨some " Hel", none⟩, none, none⟩], none, none⟩ : ChunkF),
            ⟨[⟨some ⟨some "lo", none⟩, none, none⟩], none, none⟩],
      plainChatChunk x = true) ∧
    ∃ outs, runStreamable initExtractState
        [(⟨[⟨some ⟨some " Hel", none⟩, none, none⟩], none, none⟩ : ChunkF),
         ⟨[⟨some ⟨some "lo", none⟩, none, none⟩], none, none⟩] = .ok outs ∧
      strConcat outs = jsTrimStart (strConcat
        ([(⟨[⟨some ⟨some " Hel", none⟩, none, none⟩], none, none⟩ : ChunkF),
          ⟨[⟨some ⟨some "lo", none⟩, none, none⟩], none, none⟩].map chunkContent)) :=
  ⟨by decide, c8_plain_text_concat _ (by decide)⟩

/-! ### Claim C5 -/

/-- C5 (amended): the aggregator enters Buffering at the first chunk whose
text begins with the function-call marker — `isFirstChunk` is cleared only
at that point, so a later chunk beginning with the marker still triggers
Buffering even when earlier chunks were passed through; chunks before it
are forwarded immediately, and once Buffering is entered every subsequent
chunk is buffered.  When no chunk begins with the marker, every chunk is
forwarded immediately. -/
theorem c5_buffering_behavior (complex : Bool) :
    (∀ ms : List String, (∀ m ∈ ms, jsStartsWith m fcMarker = false) →
      runTransformList complex initFCState ms
        = (⟨true, "", strConcat ms, false⟩, ms.map (emitChunk complex))) ∧
    (∀ (pre : List String) (opener : String) (post : List String),
      (∀ m ∈ pre, jsStartsWith m fcMarker = false) →
      jsStartsWith opener fcMarker = true →
      runTransformList complex initFCState (pre ++ opener :: post)
        = (⟨false, opener ++ strConcat post,
            strConcat pre ++ (opener ++ strConcat post), true⟩,
           pre.map (emitChunk complex))) := by
  constructor
  · intro ms hms
    have h := runTransformList_passthrough complex initFCState ms rfl hms
    simpa [initFCState, String.empty_append] using h
  · intro pre opener post hpre hop
    exact runTransformList_split complex pre opener post hpre hop

/-- C5 witness: a marker-free chunk is forwarded, and a stream whose
second chunk is the opener forwards the first chunk and buffers the
rest. -/
theorem c5_buffering_behavior_witness :
    runTransformList false initFCState ["hi"]
      = (⟨true, "", strConcat ["hi"], false⟩, ["hi"].map (emitChunk false)) ∧
    runTransformList false initFCState (["hi"] ++ (fcMarker ++ " x") :: [])
      = (⟨false, (fcMarker ++ " x") ++ strConcat [],
          strConcat ["hi"] ++ ((fcMarker ++ " x") ++ strConcat []), true⟩,
         ["hi"].map (emitChunk false)) :=
  ⟨(c5_buffering_behavior false).1 ["hi"] (by decide),
   (c5_buffering_behavior false).2 ["hi"] (fcMarker ++ " x") [] (by decide) (by decide)⟩

/-- C5 counterexample: the first chunk is not a function-call opener, yet
a later opener chunk is buffered (never forwarded) because `isFirstChunk`
is still set; the claim's Passthrough invariant fails. -/
theorem c5_late_opener_cex :
    (runTransformList false initFCState ["hi", fcMarker ++ " x"]).1.isFunctionStreamingIn
      = true ∧
    (runTransformList false initFCState ["hi", fcMarker ++ " x"]).2 = ["hi"] ∧
    ¬ (runTransformList false initFCState ["hi", fcMarker ++ " x"]).2
        = ["hi", fcMarker ++ " x"] := by
  refine ⟨by decide, by decide, by decide⟩

/-! ### Claim C3 -/

/-- C3 (amended): on every execution that reaches flush with a handler
response that is not a continuation — normal end of stream, malformed
buffered payload (flush throws after the finally), handler
throw/rejection — the terminal notification fires exactly once, at the
very end, carrying the full concatenated raw text of the stream, provided
that text is non-empty; when the aggregated text is empty the guard
`if (callbacks.onFinal && aggregatedFinalCompletionResponse)` skips it. -/
theorem c3_final_fires_once (complex : Bool) (h : HandlerSpec) (inputs : List String)
    (hnc : h.isContinuation = false)
    (hne : strConcat inputs ≠ "") :
    (runAll complex true h inputs).finals = [strConcat inputs] := by
  have hagg : (runTransformList complex initFCState inputs).1.aggregatedFinal
      = strConcat inputs := by
    rw [runTransformList_aggFinal]
    exact String.empty_append _
  cases h with
  | continuation msgs inner => simp [HandlerSpec.isContinuation] at hnc
  | fault =>
    simp only [runAll]
    split_ifs <;> simp [finalsFor, hagg, hne]
  | noResponse =>
    simp only [runAll]
    split_ifs <;> simp [finalsFor, hagg, hne]
  | strResp s =>
    simp only [runAll]
    split_ifs <;> simp [finalsFor, hagg, hne]

/-- C3 witness: a one-chunk stream with no function call fires the
terminal notification once with the full text. -/
theorem c3_final_fires_once_witness :
    HandlerSpec.noResponse.isContinuation = false ∧
    strConcat ["a"] ≠ "" ∧
    (runAll false true HandlerSpec.noResponse ["a"]).finals = [strConcat ["a"]] :=
  ⟨rfl, by decide, c3_final_fires_once false HandlerSpec.noResponse ["a"] rfl (by decide)⟩

/-- C3 counterexample: a stream that ends with empty aggregated text
(here: no chunks at all) reaches flush, yet the terminal notification
never fires — the claim's "no exit path skips it" fails. -/
theorem c3_empty_stream_cex :
    (runAll false true HandlerSpec.noResponse []).finals = [] ∧
    ¬ (runAll false true HandlerSpec.noResponse []).finals.length = 1 := by
  refine ⟨by decide, by decide⟩

/-! ### Claim C4 -/

/-- C4 (amended): when the buffered `aggregatedResponse` fails the
flush-time parses, the flush body throws (the stream errors) after the
finally-scoped terminal notification; nothing is emitted downstream at
flush — the raw-buffered-text function-call event is emitted only on the
path where both parses succeed and the handler returns a falsy
response. -/
theorem c4_malformed_flush_throws (complex hasOnFinal : Bool) (h : HandlerSpec)
    (pre : List String) (opener : String) (post : List String)
    (hpre : ∀ m ∈ pre, jsStartsWith m fcMarker = false)
    (hop : jsStartsWith opener fcMarker = true)
    (hbad : flushParsesOk (opener ++ strConcat post) = false) :
    runAll complex hasOnFinal h (pre ++ opener :: post)
      = ⟨pre.map (emitChunk complex),
         finalsFor hasOnFinal
           ⟨false, opener ++ strConcat post,
            strConcat pre ++ (opener ++ strConcat post), true⟩, true⟩ := by
  have hs := runTransformList_split complex pre opener post hpre hop
  cases h <;> (simp only [runAll, hs]; simp [hbad])

/-- C4 witness: a lone opener chunk whose buffered text is not valid JSON
makes the flush throw with no flush output. -/
theorem c4_malformed_flush_throws_witness :
    flushParsesOk (fcMarker ++ strConcat []) = false ∧
    runAll false false HandlerSpec.noResponse ([] ++ fcMarker :: [])
      = ⟨[].map (emitChunk false),
         finalsFor false
           ⟨false, fcMarker ++ strConcat [],
            strConcat [] ++ (fcMarker ++ strConcat []), true⟩, true⟩ :=
  ⟨by decide,
   c4_malformed_flush_throws false false HandlerSpec.noResponse [] fcMarker []
     (by simp) (by decide) (by decide)⟩

/-- C4 counterexample: on a malformed buffered payload the transformer
throws and emits nothing, instead of emitting the raw buffered text as a
best-effort function-call event as the claim states. -/
theorem c4_malformed_cex :
    (runAll false false HandlerSpec.noResponse [fcMarker]).threw = true ∧
    (runAll false false HandlerSpec.noResponse [fcMarker]).outputs = [] ∧
    ¬ (runAll false false HandlerSpec.noResponse [fcMarker]).outputs = [fcMarker] := by
  refine ⟨by decide, by decide, by decide⟩

theorem map_emitChunk_raw (l : List String) : l.map (emitChunk false) = l := by
  induction l with
  | nil => rfl
  | cons x l ih => simp [emitChunk, ih]

/-! ### Claim C7 -/

/-- C7 (amended): in raw (non-complex) mode plain-text chunks pass through
byte-identical AND the flush-time function-call event is also emitted
unenveloped (the source chooses `aggregatedResponse`, not
`getStreamString`, when `isComplexMode` is false); the type-tagged
envelope is applied to both event kinds only in complex mode. -/
theorem c7_envelope_modes (hasOnFinal : Bool) (pre : List String) (opener : String)
    (post : List String)
    (hpre : ∀ m ∈ pre, jsStartsWith m fcMarker = false)
    (hop : jsStartsWith opener fcMarker = true)
    (hok : flushParsesOk (opener ++ strConcat post) = true) :
    runAll false hasOnFinal HandlerSpec.noResponse (pre ++ opener :: post)
      = ⟨pre ++ [opener ++ strConcat post],
         finalsFor hasOnFinal ⟨false, opener ++ strConcat post,
           strConcat pre ++ (opener ++ strConcat post), true⟩, false⟩ ∧
    runAll true hasOnFinal HandlerSpec.noResponse (pre ++ opener :: post)
      = ⟨pre.map (getStreamString .text)
            ++ [getStreamString .function_call (opener ++ strConcat post)],
         finalsFor hasOnFinal ⟨false, opener ++ strConcat post,
           strConcat pre ++ (opener ++ strConcat post), true⟩, false⟩ := by
  constructor
  · have hs := runTransformList_split false pre opener post hpre hop
    simp only [runAll, hs]
    simp [hok, emitFunctionCallEvent, emitChunk, map_emitChunk_raw]
  · have hs := runTransformList_split true pre opener post hpre hop
    simp only [runAll, hs]
    simp [hok, emitFunctionCallEvent, emitChunk]

/-- C7 witness: in raw mode a valid buffered function call is emitted as
its raw text. -/
theorem c7_envelope_modes_witness :
    flushParsesOk (sampleFcPayload ++ strConcat []) = true ∧
    runAll false false HandlerSpec.noResponse ([] ++ sampleFcPayload :: [])
      = ⟨[] ++ [sampleFcPayload ++ strConcat []],
         finalsFor false ⟨false, sampleFcPayload ++ strConcat [],
           strConcat [] ++ (sampleFcPayload ++ strConcat []), true⟩, false⟩ :=
  ⟨by decide,
   (c7_envelope_modes false [] sampleFcPayload [] (by simp) (by decide) (by decide)).1⟩

/-- C7 counterexample: the function-call event emitted at flush in raw
mode is the bare buffered text, not the claimed digit-prefixed
envelope. -/
theorem c7_raw_function_call_cex :
    (runAll false false HandlerSpec.noResponse [sampleFcPayload]).outputs
      = [sampleFcPayload] ∧
    ¬ (runAll false false HandlerSpec.noResponse [sampleFcPayload]).outputs
        = [getStreamString StreamEventKind.function_call sampleFcPayload] := by
  refine ⟨by decide, by decide⟩

/-! ### Claim C1 -/

/-- C1 (amended): when the handler returns a continuation stream, the
caller-visible output is exactly the parent's events forwarded before
buffering began, followed — with the function-call event suppressed — by
the continuation's events in order; the terminal notification fires once
at the very end with the continuation's own concatenated text, provided
that text is non-empty (an empty continuation fires no notification at
all, because of the truthiness guard on the aggregated text). -/
theorem c1_continuation_splice (complex : Bool) (pre : List String) (opener : String)
    (post contMsgs : List String)
    (hpre : ∀ m ∈ pre, jsStartsWith m fcMarker = false)
    (hop : jsStartsWith opener fcMarker = true)
    (hok : flushParsesOk (opener ++ strConcat post) = true)
    (hcont : ∀ m ∈ contMsgs, jsStartsWith m fcMarker = false)
    (hne : strConcat contMsgs ≠ "") :
    runAll complex true (HandlerSpec.continuation contMsgs HandlerSpec.noResponse)
        (pre ++ opener :: post)
      = ⟨pre.map (emitChunk complex) ++ contMsgs.map (emitChunk complex),
         [strConcat contMsgs], false⟩ := by
  have hsplit := runTransformList_split complex pre opener post hpre hop
  have hinner := runTransformList_passthrough complex initFCState contMsgs rfl hcont
  simp only [runAll, hsplit, hinner]
  simp [hok, finalsFor, String.empty_append, hne, initFCState]

/-- C1 witness: a parent stream with one plain chunk and a buffered
function call, continued by a one-chunk continuation stream. -/
theorem c1_continuation_splice_witness :
    flushParsesOk (sampleFcPayload ++ strConcat []) = true ∧
    strConcat ["b"] ≠ "" ∧
    runAll false true (HandlerSpec.continuation ["b"] HandlerSpec.noResponse)
        (["a"] ++ sampleFcPayload :: [])
      = ⟨["a"].map (emitChunk false) ++ ["b"].map (emitChunk false),
         [strConcat ["b"]], false⟩ :=
  ⟨by decide, by decide,
   c1_continuation_splice false ["a"] sampleFcPayload [] ["b"]
     (by decide) (by decide) (by decide) (by decide) (by decide)⟩

/-- C1 counterexample: an empty continuation stream fires no terminal
notification at all — the claim's "exactly one onFinal fires carrying the
continuation's text" fails, since the guard on the aggregated text skips
the callback. -/
theorem c1_empty_continuation_cex :
    (runAll false true (HandlerSpec.continuation [] HandlerSpec.noResponse)
        [sampleFcPayload]).finals = [] ∧
    ¬ ((runAll false true (HandlerSpec.continuation [] HandlerSpec.noResponse)
        [sampleFcPayload]).finals.length = 1) := by
  refine ⟨by decide, by decide⟩
